import Mathlib

/-!
Verification of the frame decoder in
`src/packages/seata-js/src/seata-rpc-client/seata-tcp-buffer.ts`
(class `SeataTcpBuffer`, method `receive`).

The accumulator (`ByteBuffer`) and the protocol constants are imported by
the source from modules that are not part of this repository snapshot; they
are modelled from the specification (sections 3, 4.1 and 8).  Byte sequences
are `List Nat`; the subscriber callback is modelled by returning the list of
emitted frames in emission order.
-/

namespace Seata

/-- Modelled from the spec: protocol constant `MAGIC_HIGH` (§8: `0xDA`),
imported by the source from `seata-protocol/protocol-constants`. -/
def MAGIC_HIGH : Nat := 0xDA

/-- Modelled from the spec: protocol constant `MAGIC_LOW` (§8: `0xDA`),
imported by the source from `seata-protocol/protocol-constants`. -/
def MAGIC_LOW : Nat := 0xDA

/-- Modelled from the spec: protocol constant `V1_HEAD_LENGTH`
(`HEADER_LENGTH = 7` in §8), imported by the source from
`seata-protocol/protocol-constants`. -/
def V1_HEAD_LENGTH : Nat := 7

/-- Modelled from the spec: `ByteBuffer.indexOf(byteValue)` (§4.1) returns
the lowest 0-based index of the first occurrence of `v`, or `-1` when `v`
does not occur. -/
def indexOf : List Nat → Nat → Int
  | [], _ => -1
  | b :: rest, v =>
    if b = v then 0
    else
      let i := indexOf rest v
      if i = -1 then -1 else i + 1

/-- Modelled from the spec: `ByteBuffer.splice(0, count)` (`take` in §4.1)
removes `count` bytes from the front and returns them together with the
remaining bytes; it fails when `count` exceeds the stored length.  The spec
defines the operation only for nonnegative counts, so a negative count is
also treated as a failure. -/
def spliceFront (buff : List Nat) (count : Int) : Option (List Nat × List Nat) :=
  if count < 0 then none
  else if (buff.length : Int) < count then none
  else some (buff.take count.toNat, buff.drop count.toNat)

/-- Modelled from the spec: `ByteBuffer.readInt({unsigned: true, index: i})`
(`readUint32BE` in §4.1) reads a 4-byte big-endian unsigned integer at
offset `i` without consuming it; callers must ensure `i + 4 ≤ length`. -/
def readUInt32BE (buff : List Nat) (i : Nat) : Nat :=
  buff.getD i 0 * 16777216 + buff.getD (i + 1) 0 * 65536 +
    buff.getD (i + 2) 0 * 256 + buff.getD (i + 3) 0

/-- Outcome of the misaligned-marker prefix drop, source lines 85–93:
`ret` is the early `return` on line 90, `dropped rest` is the buffer left
after the `splice` on line 86 or 92, `fault` is an out-of-range (or
negative-count) `splice`. -/
inductive DropResult
  | ret : DropResult
  | dropped : List Nat → DropResult
  | fault : DropResult
deriving DecidableEq

/-- Source lines 85–93: given the two first-occurrence marker indices `h`
and `l`, drop the garbage prefix.  When `l - h = 1` the bytes before index
`h` are spliced away (line 86); otherwise, with `m` the larger index, the
call returns if `m + 1 ≥ length` (lines 88–91) and splices away `m + 1`
bytes otherwise (line 92). -/
def resyncDrop (h l : Int) (buff : List Nat) : DropResult :=
  if l - h = 1 then
    match spliceFront buff h with
    | none => .fault
    | some (_, rest) => .dropped rest
  else
    let m := max h l
    if m + 1 ≥ (buff.length : Int) then .ret
    else
      match spliceFront buff (m + 1) with
      | none => .fault
      | some (_, rest) => .dropped rest

/-- Outcome of the whole resynchronization block, source lines 85–97:
`wait b` is a `return` from `receive` leaving buffer `b`, `cont b`
continues to the extraction step with buffer `b`. -/
inductive ResyncResult
  | wait : List Nat → ResyncResult
  | cont : List Nat → ResyncResult
  | fault : ResyncResult
deriving DecidableEq

/-- Source lines 85–97: the prefix drop of lines 85–93 followed by the
length re-check of lines 95–97 (`return` when fewer than `V1_HEAD_LENGTH`
bytes remain). -/
def resyncStep (HL : Nat) (h l : Int) (buff : List Nat) : ResyncResult :=
  match resyncDrop h l buff with
  | .fault => .fault
  | .ret => .wait buff
  | .dropped rest => if rest.length < HL then .wait rest else .cont rest

/-- Whether a `ResyncResult` is a `wait` (a `return` from `receive`). -/
def ResyncResult.isWait : ResyncResult → Bool
  | .wait _ => true
  | _ => false

/-- The buffer retained by a `ResyncResult` (`fault` retains nothing and is
mapped to `[]`; no theorem relies on that case). -/
def ResyncResult.buffer : ResyncResult → List Nat
  | .wait b => b
  | .cont b => b
  | .fault => []

/-- Outcome of one iteration of the `while` loop in `receive`, source lines
68–105: `ret b` is a `return` leaving buffer `b`, `emit frame rest` hands
`frame` to the subscriber and continues the loop on `rest`, `fault` is an
out-of-range accumulator access. -/
inductive StepResult
  | ret : List Nat → StepResult
  | emit : List Nat → List Nat → StepResult
  | fault : StepResult
deriving DecidableEq

/-- One iteration of the `while` loop body, source lines 69–104, for a
buffer already known to hold at least `HL` bytes: look up both marker
indices (lines 69–70); `return` when both are found (lines 73–75); run the
resynchronization block when the markers are not at offsets 0 and 1 (lines
78–98); then read the 4-byte unsigned length at offset 3 and splice off
that many bytes as the emitted frame (lines 101–104). -/
def receiveStep (MH ML HL : Nat) (buff : List Nat) : StepResult :=
  let h := indexOf buff MH
  let l := indexOf buff ML
  if h ≠ -1 ∧ l ≠ -1 then .ret buff
  else
    let after := if h ≠ 0 ∨ l ≠ 1 then resyncStep HL h l buff else .cont buff
    match after with
    | .fault => .fault
    | .wait b => .ret b
    | .cont b =>
      let fullLength := readUInt32BE b 3
      match spliceFront b (fullLength : Int) with
      | none => .fault
      | some (frame, rest) => .emit frame rest

/-- Final outcome of a `receive` call: `done b frames` is a normal return
with final buffer `b` and the frames handed to the subscriber in order;
`fault` is an out-of-range accumulator access; `timeout` means the fuel ran
out (the source loop has no such bound, so divergence of the source shows
up as `timeout` for every fuel). -/
inductive RunResult
  | done : List Nat → List (List Nat) → RunResult
  | fault : RunResult
  | timeout : RunResult
deriving DecidableEq

/-- The `while (this.buff.getLength() >= prot.V1_HEAD_LENGTH)` loop of
`receive`, source lines 68–105, with explicit fuel. -/
def receiveLoop (MH ML HL : Nat) : Nat → List Nat → RunResult
  | 0, _ => .timeout
  | fuel + 1, buff =>
    if buff.length < HL then .done buff []
    else
      match receiveStep MH ML HL buff with
      | .ret b => .done b []
      | .fault => .fault
      | .emit frame rest =>
        match receiveLoop MH ML HL fuel rest with
        | .done b frames => .done b (frame :: frames)
        | r => r

/-- `receive(data)` for arbitrary protocol constants: append `data` to the
accumulator (source line 66), then run the extraction loop. -/
def receiveRaw (MH ML HL fuel : Nat) (buff data : List Nat) : RunResult :=
  receiveLoop MH ML HL fuel (buff ++ data)

/-- `SeataTcpBuffer.receive(data)`, source lines 63–106, at the protocol
constants: `buff` is the accumulator contents before the call, `data` the
inbound chunk. -/
def receive (fuel : Nat) (buff data : List Nat) : RunResult :=
  receiveRaw MAGIC_HIGH MAGIC_LOW V1_HEAD_LENGTH fuel buff data

/-- `indexOf` returns `-1` on a byte that does not occur. -/
theorem indexOf_of_not_mem {buff : List Nat} {v : Nat} (h : v ∉ buff) :
    indexOf buff v = -1 := by
  induction buff with
  | nil => rfl
  | cons b rest ih =>
    have hb : ¬ b = v := fun hb => h (hb ▸ List.mem_cons_self b rest)
    have hrest : v ∉ rest := fun hm => h (List.mem_cons_of_mem b hm)
    simp [indexOf, hb, ih hrest]

/-- On a byte that occurs, `indexOf` returns a valid index. -/
theorem indexOf_bounds {buff : List Nat} {v : Nat} (h : v ∈ buff) :
    0 ≤ indexOf buff v ∧ indexOf buff v < buff.length := by
  induction buff with
  | nil => cases h
  | cons b rest ih =>
    by_cases hb : b = v
    · simp [indexOf, hb]
    · have hrest : v ∈ rest := by
        rcases List.mem_cons.mp h with h' | h'
        · exact absurd h'.symm hb
        · exact h'
      have ⟨h0, hlt⟩ := ih hrest
      have hne : ¬ indexOf rest v = -1 := by omega
      simp only [indexOf, if_neg hb, if_neg hne, List.length_cons]
      constructor
      · omega
      · push_cast; omega

/-- On a byte that occurs, `indexOf` does not return `-1`. -/
theorem indexOf_ne_neg_one {buff : List Nat} {v : Nat} (h : v ∈ buff) :
    indexOf buff v ≠ -1 := by
  have := (indexOf_bounds h).1
  omega

/-- A byte whose `indexOf` is not `-1` occurs in the buffer. -/
theorem mem_of_indexOf_ne {buff : List Nat} {v : Nat}
    (h : indexOf buff v ≠ -1) : v ∈ buff := by
  by_contra hm
  exact h (indexOf_of_not_mem hm)

/-- When both marker indices are found, the loop body returns at source
lines 73–75, so `receive` ends with the buffer unchanged and no frame
emitted. -/
theorem receiveLoop_done_of_found (MH ML HL fuel : Nat) (buff : List Nat)
    (hh : indexOf buff MH ≠ -1) (hl : indexOf buff ML ≠ -1) :
    receiveLoop MH ML HL (fuel + 1) buff = .done buff [] := by
  simp only [receiveLoop]
  split
  · rfl
  · have hstep : receiveStep MH ML HL buff = .ret buff := by
      dsimp only [receiveStep]
      rw [if_pos ⟨hh, hl⟩]
    rw [hstep]

/-- Claim C1: the claim states that when either magic marker is entirely
absent from the buffered bytes, `receive` returns without emitting a frame
and without removing bytes.  The code does the opposite: on a 7-byte chunk
with no `0xDA` at all and length field 7, `receive` extracts and emits the
bytes as a frame and empties the accumulator (the guard on source line 73
returns when the markers are *found*, not when they are absent). -/
theorem c1_marker_absent_still_extracts :
    MAGIC_HIGH ∉ ([] ++ [0, 0, 0, 0, 0, 0, 7] : List Nat) ∧
    MAGIC_LOW ∉ ([] ++ [0, 0, 0, 0, 0, 0, 7] : List Nat) ∧
    receive 10 [] [0, 0, 0, 0, 0, 0, 7] = .done [] [[0, 0, 0, 0, 0, 0, 7]] := by
  refine ⟨by decide, by decide, by decide⟩

/-- Claim C2: the claim states that a well-formed frame fed to `receive`
across any partition yields exactly one emission, byte-identical to the
frame.  The code emits nothing: for the well-formed 9-byte frame delivered
in a single chunk (N = 1), both marker indices are found, the guard on
source line 73 returns immediately, and the subscriber is never invoked. -/
theorem c2_wellformed_frame_never_emitted :
    ([218, 218, 1, 0, 0, 0, 9, 171, 205] : List Nat).getD 0 0 = MAGIC_HIGH ∧
    ([218, 218, 1, 0, 0, 0, 9, 171, 205] : List Nat).getD 1 0 = MAGIC_LOW ∧
    readUInt32BE [218, 218, 1, 0, 0, 0, 9, 171, 205] 3 =
      ([218, 218, 1, 0, 0, 0, 9, 171, 205] : List Nat).length ∧
    V1_HEAD_LENGTH ≤ ([218, 218, 1, 0, 0, 0, 9, 171, 205] : List Nat).length ∧
    receive 10 [] [218, 218, 1, 0, 0, 0, 9, 171, 205] =
      .done [218, 218, 1, 0, 0, 0, 9, 171, 205] [] := by
  refine ⟨by decide, by decide, by decide, by decide, by decide⟩

/-- Claim C3: the claim states that delivering the example frame
`[0xDA, 0xDA, 0x01, 0x00, 0x00, 0x00, 0x09, 0xAB, 0xCD]` in two `receive`
calls invokes the consumer exactly once with the full 9 bytes and leaves
the accumulator empty.  The code invokes the consumer zero times and leaves
all 9 bytes buffered: the first call buffers 3 bytes (below
`V1_HEAD_LENGTH`), and the second call returns at source line 73 because
both marker bytes are found. -/
theorem c3_split_example_no_callback :
    receive 10 [] [218, 218, 1] = .done [218, 218, 1] [] ∧
    receive 10 [218, 218, 1] [0, 0, 0, 9, 171, 205] =
      .done [218, 218, 1, 0, 0, 0, 9, 171, 205] [] := by
  refine ⟨by decide, by decide⟩

/-- Claim C4: the claim states that every emitted buffer has length at
least `V1_HEAD_LENGTH` and that a length field smaller than the header is
never silently extracted.  The code emits a 5-byte buffer: on the chunk
`[0,0,0,0,0,0,5]` (no marker anywhere, length field 5) it splices off and
emits `[0,0,0,0,0]`, which is shorter than the 7-byte minimum header. -/
theorem c4_short_frame_emitted :
    receive 10 [] [0, 0, 0, 0, 0, 0, 5] = .done [0, 5] [[0, 0, 0, 0, 0]] ∧
    ([0, 0, 0, 0, 0] : List Nat).length < V1_HEAD_LENGTH := by
  refine ⟨by decide, by decide⟩

/-- Claim C6: the claim states that `receive` never performs an
out-of-range accumulator access.  The code does: on the chunk
`[0,0,0,0,0,0,100]` (7 bytes buffered, no marker anywhere, length field
100) it calls `splice(0, 100)` on a 7-byte buffer, which violates the
accumulator's `start + count ≤ length` precondition and faults. -/
theorem c6_out_of_range_splice :
    readUInt32BE [0, 0, 0, 0, 0, 0, 100] 3 = 100 ∧
    ([0, 0, 0, 0, 0, 0, 100] : List Nat).length = 7 ∧
    receive 10 [] [0, 0, 0, 0, 0, 0, 100] = .fault := by
  refine ⟨by decide, by decide, by decide⟩

/-- Claim C7: the claim states that `receive` always terminates after
finitely many loop iterations.  The code does not: on the chunk
`[0,0,0,0,0,0,0]` (7 bytes, no marker, length field 0) every iteration
splices off zero bytes, emits an empty frame, and leaves the buffer
unchanged, so the loop runs forever — for every fuel bound the embedded
loop exhausts its fuel. -/
theorem c7_zero_length_field_diverges (fuel : Nat) :
    receive fuel [] [0, 0, 0, 0, 0, 0, 0] = .timeout := by
  show receiveLoop MAGIC_HIGH MAGIC_LOW V1_HEAD_LENGTH fuel
      [0, 0, 0, 0, 0, 0, 0] = .timeout
  induction fuel with
  | zero => rfl
  | succ n ih =>
    have hstep : receiveStep MAGIC_HIGH MAGIC_LOW V1_HEAD_LENGTH
        [0, 0, 0, 0, 0, 0, 0] = .emit [] [0, 0, 0, 0, 0, 0, 0] := by decide
    have hlen : ¬ ([0, 0, 0, 0, 0, 0, 0] : List Nat).length < V1_HEAD_LENGTH := by
      decide
    simp only [receiveLoop, if_neg hlen, hstep, ih]

/-- Claim C5: when a frame header is aligned at offset 0 (both marker bytes
at offsets 0 and 1) but the 4-byte unsigned length field at offset 3
exceeds the number of buffered bytes, `receive` emits no frame and leaves
the buffered bytes unchanged.  (In the code this holds because the marker
bytes are found, so the guard on source line 73 returns before any
extraction is attempted.) -/
theorem c5_oversized_length_no_emit (fuel : Nat) (prev data : List Nat)
    (hmh : (prev ++ data).getD 0 0 = MAGIC_HIGH)
    (hml : (prev ++ data).getD 1 0 = MAGIC_LOW)
    (hlen : V1_HEAD_LENGTH ≤ (prev ++ data).length)
    (hover : (prev ++ data).length < readUInt32BE (prev ++ data) 3) :
    receive (fuel + 1) prev data = .done (prev ++ data) [] := by
  rw [show V1_HEAD_LENGTH = 7 from rfl] at hlen
  have h0 : (0 : Nat) < (prev ++ data).length := by omega
  have h1 : (1 : Nat) < (prev ++ data).length := by omega
  have hmem0 : MAGIC_HIGH ∈ prev ++ data := by
    rw [← hmh, List.getD_eq_getElem _ 0 h0]
    exact List.getElem_mem h0
  have hmem1 : MAGIC_LOW ∈ prev ++ data := by
    rw [← hml, List.getD_eq_getElem _ 0 h1]
    exact List.getElem_mem h1
  exact receiveLoop_done_of_found MAGIC_HIGH MAGIC_LOW V1_HEAD_LENGTH fuel
    (prev ++ data) (indexOf_ne_neg_one hmem0) (indexOf_ne_neg_one hmem1)

/-- Concrete instance of the oversized-length theorem: header aligned at
offset 0, length field 200 over a 7-byte buffer; `receive` returns with
the buffer unchanged and no frame emitted. -/
theorem c5_witness :
    (([] : List Nat) ++ [218, 218, 0, 0, 0, 0, 200]).getD 0 0 = MAGIC_HIGH ∧
    (([] : List Nat) ++ [218, 218, 0, 0, 0, 0, 200]).getD 1 0 = MAGIC_LOW ∧
    V1_HEAD_LENGTH ≤ (([] : List Nat) ++ [218, 218, 0, 0, 0, 0, 200]).length ∧
    (([] : List Nat) ++ [218, 218, 0, 0, 0, 0, 200]).length <
      readUInt32BE (([] : List Nat) ++ [218, 218, 0, 0, 0, 0, 200]) 3 ∧
    receive (0 + 1) [] [218, 218, 0, 0, 0, 0, 200] =
      .done (([] : List Nat) ++ [218, 218, 0, 0, 0, 0, 200]) [] :=
  ⟨by decide, by decide, by decide, by decide,
    c5_oversized_length_no_emit 0 [] [218, 218, 0, 0, 0, 0, 200]
      (by decide) (by decide) (by decide) (by decide)⟩

/-- Claim C10: whenever, after appending the chunk, both `MAGIC_HIGH` and
`MAGIC_LOW` occur somewhere in the accumulator (aligned or not), `receive`
returns immediately: no frame is emitted and no byte is removed — the
accumulator holds exactly the previous contents followed by the chunk.
This is the guard on source lines 73–75. -/
theorem c10_markers_found_return_untouched (fuel : Nat) (prev data : List Nat)
    (hh : MAGIC_HIGH ∈ prev ++ data) (hl : MAGIC_LOW ∈ prev ++ data) :
    receive (fuel + 1) prev data = .done (prev ++ data) [] :=
  receiveLoop_done_of_found MAGIC_HIGH MAGIC_LOW V1_HEAD_LENGTH fuel
    (prev ++ data) (indexOf_ne_neg_one hh) (indexOf_ne_neg_one hl)

/-- Concrete instance of the markers-found theorem: a single misplaced
`0xDA` in a 9-byte buffer makes `receive` return with nothing emitted and
nothing removed. -/
theorem c10_witness :
    MAGIC_HIGH ∈ ([1, 2] : List Nat) ++ [3, 218, 5, 6, 7, 8, 9] ∧
    MAGIC_LOW ∈ ([1, 2] : List Nat) ++ [3, 218, 5, 6, 7, 8, 9] ∧
    receive (0 + 1) [1, 2] [3, 218, 5, 6, 7, 8, 9] =
      .done (([1, 2] : List Nat) ++ [3, 218, 5, 6, 7, 8, 9]) [] :=
  ⟨by decide, by decide,
    c10_markers_found_return_untouched 0 [1, 2] [3, 218, 5, 6, 7, 8, 9]
      (by decide) (by decide)⟩

/-- The number of bytes the resynchronization block of source lines 85–93
identifies as the garbage prefix: the bytes before the `MAGIC_HIGH` index
when the two indices are exactly one apart (line 86), and everything up to
and including the larger index otherwise (line 92). -/
def dropCount (h l : Int) : Int :=
  if l - h = 1 then h else max h l + 1

/-- When the marker indices are valid positions and dropping the garbage
prefix would leave fewer than `HL` bytes, the resynchronization block ends
in a `return` (either the early return of line 90 or the length re-check of
lines 95–97). -/
theorem resyncStep_isWait (HL : Nat) (h l : Int) (buff : List Nat)
    (h0 : 0 ≤ h) (hhl : h < buff.length) (l0 : 0 ≤ l) (hll : l < buff.length)
    (hshort : (buff.length : Int) < dropCount h l + HL) :
    (resyncStep HL h l buff).isWait = true := by
  by_cases hadj : l - h = 1
  · have hsp : spliceFront buff h =
        some (buff.take h.toNat, buff.drop h.toNat) := by
      unfold spliceFront
      rw [if_neg (by omega), if_neg (by omega)]
    have hdc : dropCount h l = h := if_pos hadj
    rw [hdc] at hshort
    have hrest : (buff.drop h.toNat).length < HL := by
      rw [List.length_drop]
      omega
    unfold resyncStep resyncDrop
    rw [if_pos hadj, hsp]
    simp only [if_pos hrest]
    rfl
  · have hdc : dropCount h l = max h l + 1 := if_neg hadj
    rw [hdc] at hshort
    unfold resyncStep resyncDrop
    rw [if_neg hadj]
    by_cases hret : max h l + 1 ≥ (buff.length : Int)
    · rw [if_pos hret]
      rfl
    · rw [if_neg hret]
      have hsp : spliceFront buff (max h l + 1) =
          some (buff.take (max h l + 1).toNat, buff.drop (max h l + 1).toNat) := by
        unfold spliceFront
        rw [if_neg (by omega), if_neg (by omega)]
      have hrest : (buff.drop (max h l + 1).toNat).length < HL := by
        rw [List.length_drop]
        omega
      rw [hsp]
      simp only [if_pos hrest]
      rfl

/-- Claim C8: during resynchronization — both marker bytes found but not at
offsets 0 and 1 — if discarding the identified garbage prefix would leave
fewer than `HL` bytes, the resynchronization block ends in a `return`, and
the `receive` call as a whole emits no frame.  (In the full `receive`, a
buffer with both markers found returns already at source line 73, so no
frame is extracted or emitted there either.) -/
theorem c8_resync_short_remainder_waits (MH ML HL fuel : Nat) (buff : List Nat)
    (hh : indexOf buff MH ≠ -1) (hl : indexOf buff ML ≠ -1)
    (hmis : ¬ (indexOf buff MH = 0 ∧ indexOf buff ML = 1))
    (hshort : (buff.length : Int) <
      dropCount (indexOf buff MH) (indexOf buff ML) + HL) :
    (resyncStep HL (indexOf buff MH) (indexOf buff ML) buff).isWait = true ∧
    receiveLoop MH ML HL (fuel + 1) buff = .done buff [] := by
  have hb := indexOf_bounds (mem_of_indexOf_ne hh)
  have lb := indexOf_bounds (mem_of_indexOf_ne hl)
  exact ⟨resyncStep_isWait HL _ _ buff hb.1 hb.2 lb.1 lb.2 hshort,
    receiveLoop_done_of_found MH ML HL fuel buff hh hl⟩

/-- Concrete instance of the short-remainder resynchronization theorem:
markers at indices 1 and 2 of a 7-byte buffer; dropping the 1-byte prefix
would leave 6 bytes, below the 7-byte minimum, so the block waits and the
call emits nothing. -/
theorem c8_witness :
    indexOf [0, 171, 205, 0, 0, 0, 0] 171 ≠ -1 ∧
    indexOf [0, 171, 205, 0, 0, 0, 0] 205 ≠ -1 ∧
    ¬ (indexOf [0, 171, 205, 0, 0, 0, 0] 171 = 0 ∧
       indexOf [0, 171, 205, 0, 0, 0, 0] 205 = 1) ∧
    (([0, 171, 205, 0, 0, 0, 0] : List Nat).length : Int) <
      dropCount (indexOf [0, 171, 205, 0, 0, 0, 0] 171)
        (indexOf [0, 171, 205, 0, 0, 0, 0] 205) + 7 ∧
    ((resyncStep 7 (indexOf [0, 171, 205, 0, 0, 0, 0] 171)
        (indexOf [0, 171, 205, 0, 0, 0, 0] 205)
        [0, 171, 205, 0, 0, 0, 0]).isWait = true ∧
      receiveLoop 171 205 7 (0 + 1) [0, 171, 205, 0, 0, 0, 0] =
        .done [0, 171, 205, 0, 0, 0, 0] []) :=
  ⟨by decide, by decide, by decide, by decide,
    c8_resync_short_remainder_waits 171 205 7 0 [0, 171, 205, 0, 0, 0, 0]
      (by decide) (by decide) (by decide) (by decide)⟩

/-- Claim C9: during resynchronization, when the first occurrence of
`MAGIC_LOW` is exactly one past the first occurrence of `MAGIC_HIGH` but
`MAGIC_HIGH` is not at offset 0, the block removes exactly the bytes before
the `MAGIC_HIGH` index (the `splice` on source line 86) and keeps every
byte from `MAGIC_HIGH` onward. -/
theorem c9_adjacent_markers_drop_before_high (MH ML HL : Nat) (buff : List Nat)
    (hh : indexOf buff MH ≠ -1)
    (hadj : indexOf buff ML = indexOf buff MH + 1)
    (hnz : indexOf buff MH ≠ 0) :
    (resyncStep HL (indexOf buff MH) (indexOf buff ML) buff).buffer =
      buff.drop (indexOf buff MH).toNat := by
  have hb := indexOf_bounds (mem_of_indexOf_ne hh)
  have hd : indexOf buff ML - indexOf buff MH = 1 := by omega
  have hsp : spliceFront buff (indexOf buff MH) =
      some (buff.take (indexOf buff MH).toNat,
        buff.drop (indexOf buff MH).toNat) := by
    unfold spliceFront
    rw [if_neg (by omega), if_neg (by omega)]
  unfold resyncStep resyncDrop
  rw [if_pos hd, hsp]
  by_cases hw : (buff.drop (indexOf buff MH).toNat).length < HL
  · simp only [if_pos hw]
    rfl
  · simp only [if_neg hw]
    rfl

/-- Concrete instance of the adjacent-markers theorem: markers at indices
1 and 2 of a 7-byte buffer; the block keeps exactly the bytes from index 1
onward. -/
theorem c9_witness :
    indexOf [9, 171, 205, 1, 2, 3, 4] 171 ≠ -1 ∧
    indexOf [9, 171, 205, 1, 2, 3, 4] 205 =
      indexOf [9, 171, 205, 1, 2, 3, 4] 171 + 1 ∧
    indexOf [9, 171, 205, 1, 2, 3, 4] 171 ≠ 0 ∧
    (resyncStep 7 (indexOf [9, 171, 205, 1, 2, 3, 4] 171)
        (indexOf [9, 171, 205, 1, 2, 3, 4] 205)
        [9, 171, 205, 1, 2, 3, 4]).buffer =
      List.drop (indexOf [9, 171, 205, 1, 2, 3, 4] 171).toNat
        [9, 171, 205, 1, 2, 3, 4] :=
  ⟨by decide, by decide, by decide,
    c9_adjacent_markers_drop_before_high 171 205 7 [9, 171, 205, 1, 2, 3, 4]
      (by decide) (by decide) (by decide)⟩

end Seata
